import Mathlib

/-
Verification of the data-transformation core of the pandas-covid-map
repository (CSC314_2022_Fall_RyanRiccio_Covid.py).

A DataFrame is modelled as a structure of row labels, column labels and a
row-major grid of rational cell values.  The pandas column assignments
(df.iloc[:, column] = ...) act on every row independently, so each table
operation is the row-wise map of a per-row loop; the Python loops over
range(...) become folds over explicit lists of column indices.  Python
object aliasing (in-place mutation of an argument) is modelled by a small
heap of tables addressed by natural numbers.
-/

namespace Covid

/-- The fixed first recorded date column label used by the program. -/
def day0 : String := "1/22/20"

/-- Model of the Python expression range(a, b): the indices a, a+1, ..., b-1. -/
def pyRangeAsc (a b : ℕ) : List ℕ := (List.range (b - a)).map (a + ·)

/-- Model of the Python expression range(a, b, -1): the indices a, a-1, ..., b+1. -/
def pyRangeDesc (a b : ℕ) : List ℕ := (List.range (a - b)).map (a - ·)

/-- Model of a pandas DataFrame: row labels, column labels, row-major data. -/
structure DF where
  index : List String
  cols  : List String
  data  : List (List ℚ)
deriving DecidableEq

/-- Cell access: value of row i at column j, 0 outside the grid. -/
def cell (df : DF) (i j : ℕ) : ℚ := (df.data.getD i []).getD j 0

/-- Model of row.iloc[a:b].mean(): the arithmetic mean of the slice of the
row from position a up to (excluding) position b, clipped to the row length
as pandas slicing clips. -/
def sliceMean (row : List ℚ) (a b : ℕ) : ℚ :=
  let s := (row.drop a).take (b - a)
  if s.length = 0 then 0 else s.sum / (s.length : ℚ)

/-- One iteration of the cumulative-to-daily loop body,
df.iloc[:, column] = df.iloc[:, column] - df.iloc[:, column - 1],
restricted to a single row. -/
def dailyStep (r : List ℚ) (col : ℕ) : List ℚ :=
  r.set col (r.getD col 0 - r.getD (col - 1) 0)

/-- The loop for column in range(last_column, first_column, -1) of
convert_to_daily, restricted to a single row. -/
def dailyRow (first last : ℕ) (row : List ℚ) : List ℚ :=
  (pyRangeDesc last first).foldl dailyStep row

/-- Model of convert_to_daily(df): computes first_column and last_column,
copies the last column as total_deaths before the loop, then runs the
subtraction loop over every row.  The returned table is the value held by
the (mutated) argument object; aliasing itself is modelled separately on
the heap below. -/
def convert_to_daily (df : DF) : DF × List ℚ :=
  let first := df.cols.indexOf day0
  let last := df.cols.length - 1
  let total_deaths := df.data.map (fun row => row.getD last 0)
  ({ df with data := df.data.map (dailyRow first last) }, total_deaths)

/-- One iteration of the first averaging loop body,
avg.iloc[:, column] = avg.iloc[:, column:column + n].mean(axis=1),
restricted to a single row. -/
def avgStep (n : ℕ) (r : List ℚ) (col : ℕ) : List ℚ :=
  r.set col (sliceMean r col (col + n))

/-- The loop for column in range(first_column + n, last_column) of
n_day_average, restricted to a single row. -/
def avgRowPass1 (first last n : ℕ) (row : List ℚ) : List ℚ :=
  (pyRangeAsc (first + n) last).foldl (avgStep n) row

/-- One iteration of the second averaging loop body,
avg.iloc[:, column] = avg.iloc[:, first_column:column + 1].mean(axis=1),
restricted to a single row. -/
def avgStep2 (first : ℕ) (r : List ℚ) (col : ℕ) : List ℚ :=
  r.set col (sliceMean r first (col + 1))

/-- The loop for column in range(first_column, n) of n_day_average,
restricted to a single row. -/
def avgRowPass2 (first n : ℕ) (row : List ℚ) : List ℚ :=
  (pyRangeAsc first n).foldl (avgStep2 first) row

/-- Model of n_day_average(df, n): works on a copy of df, computes
first_column and last_column, then runs the two averaging loops over every
row of the copy. -/
def n_day_average (df : DF) (n : ℕ) : DF :=
  let first := df.cols.indexOf day0
  let last := df.cols.length - 1
  { df with data := df.data.map (fun row => avgRowPass2 first n (avgRowPass1 first last n row)) }

/-- Model of the Python str.title() method for ASCII text: an alphabetic
character is uppercased at a word start and lowercased otherwise. -/
def titleChars : Bool → List Char → List Char
  | _, [] => []
  | prevAlpha, c :: rest =>
    if c.isAlpha then
      (if prevAlpha then c.toLower else c.toUpper) :: titleChars true rest
    else c :: titleChars false rest

/-- Model of county.title(). -/
def pytitle (s : String) : String := ⟨titleChars false s.data⟩

/-- Model of county_in_df(val, df): membership of val in df.index. -/
def county_in_df (val : String) (df : DF) : Bool :=
  if val ∈ df.index then true else false

/-- Errors the program can raise: the explicit ValueError of run_program and
the KeyError a failing df.loc lookup raises. -/
inductive ProgErr where
  | valueError (msg : String)
  | keyError (key : String)
deriving DecidableEq

/-- Model of get_county(df, county), that is df.loc[county]: the row of the
county, or a KeyError when the label is absent. -/
def get_county (df : DF) (county : String) : Except ProgErr (List ℚ) :=
  match df.index.indexOf? county with
  | some i => .ok (df.data.getD i [])
  | none => .error (.keyError county)

/-- Observable steps of run_program, in execution order. -/
inductive Event where
  | getStats | getData | convert | average | select | plot
deriving DecidableEq

/-- Model of run_program(county): the two loads, the title-case
normalization and validation against the stats table, then conversion,
averaging, county selection and plotting.  The loaded tables are passed in
as parameters (they come from files and the network); the result is the
trace of performed steps together with the raised error, if any. -/
def run_program (ca_stats_df ca_covid_df : DF) (county : String) :
    List Event × Option ProgErr :=
  let t0 := [Event.getStats, Event.getData]
  let county := pytitle county
  if county_in_df county ca_stats_df then
    let converted := convert_to_daily ca_covid_df
    let ca_avg_df := n_day_average converted.1 7
    match get_county ca_avg_df county with
    | .ok _ => (t0 ++ [Event.convert, Event.average, Event.select, Event.plot], none)
    | .error e => (t0 ++ [Event.convert, Event.average, Event.select], some e)
  else
    (t0, some (.valueError "That is an invalid county."))

/-- Model of the download decision on line 26 of get_data:
not os.path.exists(filename) or time.time() - os.path.getmtime(filename) > 60 * 60 * 12.
The filesystem and clock readings are passed in as parameters. -/
def get_data_downloads (fileExists : Bool) (now mtime : ℚ) : Bool :=
  !fileExists || decide (now - mtime > 60 * 60 * 12)

/-- A heap of table objects, modelling Python references: run_program
variables hold indices into the heap. -/
abbrev Heap := List DF

/-- The empty table, default for dangling reads. -/
def emptyDF : DF := ⟨[], [], []⟩

/-- Read the table stored at reference r. -/
def readT (h : Heap) (r : ℕ) : DF := h.getD r emptyDF

/-- Overwrite the table stored at reference r. -/
def writeT (h : Heap) (r : ℕ) (t : DF) : Heap := h.set r t

/-- Allocate a fresh table object, returning the new heap and its reference. -/
def allocT (h : Heap) (t : DF) : Heap × ℕ := (h ++ [t], h.length)

/-- convert_to_daily at the object level: the loop assigns through
df.iloc, so the converted data is written back to the reference of the
argument itself, and that same reference is returned. -/
def convert_to_daily_heap (h : Heap) (r : ℕ) : Heap × (ℕ × List ℚ) :=
  let df := readT h r
  let res := convert_to_daily df
  (writeT h r res.1, (r, res.2))

/-- n_day_average at the object level: avg = df.copy() allocates a fresh
object, all writes target the copy, and the reference of the copy is
returned; the argument object is never written. -/
def n_day_average_heap (h : Heap) (r n : ℕ) : Heap × ℕ :=
  let df := readT h r
  let alloc := allocT h df
  let avg := n_day_average df n
  (writeT alloc.1 alloc.2 avg, alloc.2)

/-- getD after a drop shifts the position. -/
theorem getD_drop {α : Type} (l : List α) (a j : ℕ) (d : α) :
    (l.drop a).getD j d = l.getD (a + j) d := by
  induction l generalizing a with
  | nil => simp [List.getD]
  | cons x t ih =>
    cases a with
    | zero => simp
    | succ a =>
      have : a + 1 + j = (a + j) + 1 := by omega
      rw [this]
      exact ih a

/-- getD inside the taken prefix is getD of the list. -/
theorem getD_take {α : Type} (l : List α) (k j : ℕ) (d : α) (h : j < k) :
    (l.take k).getD j d = l.getD j d := by
  induction l generalizing k j with
  | nil => simp
  | cons x t ih =>
    cases k with
    | zero => omega
    | succ k =>
      cases j with
      | zero => simp
      | succ j => simpa using ih k j (by omega)

/-- getD at the set position returns the written value. -/
theorem getD_set_self {α : Type} (l : List α) (i : ℕ) (x d : α) (h : i < l.length) :
    (l.set i x).getD i d = x := by
  induction l generalizing i with
  | nil => simp at h
  | cons y t ih =>
    cases i with
    | zero => simp
    | succ i => simpa using ih i (by simpa using h)

/-- getD away from the set position is unchanged. -/
theorem getD_set_ne {α : Type} (l : List α) (i j : ℕ) (x d : α) (h : i ≠ j) :
    (l.set i x).getD j d = l.getD j d := by
  induction l generalizing i j with
  | nil => simp
  | cons y t ih =>
    cases i with
    | zero =>
      cases j with
      | zero => omega
      | succ j => simp
    | succ i =>
      cases j with
      | zero => simp
      | succ j => simpa using ih i j (by omega)

/-- Writing the value already present leaves the list unchanged. -/
theorem set_getD_self {α : Type} (l : List α) (i : ℕ) (d : α) (h : i < l.length) :
    l.set i (l.getD i d) = l := by
  induction l generalizing i with
  | nil => simp at h
  | cons y t ih =>
    cases i with
    | zero => simp
    | succ i => simpa using ih i (by simpa using h)

/-- Writing past the end of the list is a no-op. -/
theorem set_of_len_le {α : Type} (l : List α) (i : ℕ) (x : α) (h : l.length ≤ i) :
    l.set i x = l := by
  induction l generalizing i with
  | nil => simp
  | cons y t ih =>
    cases i with
    | zero => simp at h
    | succ i => simpa using ih i (by simpa using h)

/-- A prefix strictly below the set position is unchanged. -/
theorem take_set {α : Type} (l : List α) (i j : ℕ) (x : α) (h : j ≤ i) :
    (l.set i x).take j = l.take j := by
  induction l generalizing i j with
  | nil => simp
  | cons y t ih =>
    cases j with
    | zero => simp
    | succ j =>
      cases i with
      | zero => omega
      | succ i => simpa using ih i j (by omega)

/-- A suffix strictly above the set position is unchanged. -/
theorem drop_set {α : Type} (l : List α) (i j : ℕ) (x : α) (h : i < j) :
    (l.set i x).drop j = l.drop j := by
  induction l generalizing i j with
  | nil => simp
  | cons y t ih =>
    cases j with
    | zero => omega
    | succ j =>
      cases i with
      | zero => simp
      | succ i => simpa using ih i j (by omega)

/-- getD inside the left part of an append. -/
theorem getD_append_left {α : Type} (l m : List α) (i : ℕ) (d : α) (h : i < l.length) :
    (l ++ m).getD i d = l.getD i d := by
  induction l generalizing i with
  | nil => simp at h
  | cons y t ih =>
    cases i with
    | zero => simp
    | succ i => simpa using ih i (by simpa using h)

/-- getD through a map, inside the list. -/
theorem getD_map {α β : Type} (l : List α) (f : α → β) (i : ℕ) (d : α) (e : β)
    (h : i < l.length) : (l.map f).getD i e = f (l.getD i d) := by
  induction l generalizing i with
  | nil => simp at h
  | cons y t ih =>
    cases i with
    | zero => simp
    | succ i => simpa using ih i (by simpa using h)

/-- A list sum as a finite sum of its getD values. -/
theorem sum_eq_finset_sum (l : List ℚ) :
    l.sum = ∑ j in Finset.range l.length, l.getD j 0 := by
  induction l with
  | nil => simp
  | cons x t ih =>
    rw [List.sum_cons, ih]
    rw [List.length_cons, Finset.sum_range_succ' (fun j => (x :: t).getD j 0) t.length]
    simp [add_comm]

/-- Two lists equal below a drop position agree there pointwise. -/
theorem getD_of_drop_eq {α : Type} (l m : List α) (a j : ℕ) (d : α)
    (h : l.drop a = m.drop a) (hj : a ≤ j) : l.getD j d = m.getD j d := by
  have h1 : (l.drop a).getD (j - a) d = (m.drop a).getD (j - a) d := by rw [h]
  rw [getD_drop, getD_drop] at h1
  have : a + (j - a) = j := by omega
  rwa [this] at h1

/-- Two lists with an equal taken prefix agree there pointwise. -/
theorem getD_of_take_eq {α : Type} (l m : List α) (a j : ℕ) (d : α)
    (h : l.take a = m.take a) (hj : j < a) : l.getD j d = m.getD j d := by
  have h1 : (l.take a).getD j d = (m.take a).getD j d := by rw [h]
  rwa [getD_take _ _ _ _ hj, getD_take _ _ _ _ hj] at h1

/-- The per-column value written by the first averaging loop. -/
def windowFn (n : ℕ) : List ℚ → ℕ → ℚ := fun l c => sliceMean l c (c + n)

/-- The per-column value written by the second averaging loop. -/
def headFn (first : ℕ) : List ℚ → ℕ → ℚ := fun l c => sliceMean l first (c + 1)

/-- Generic form of the two averaging loops: a fold over the columns
a, a+1, ..., a+k-1, each step overwriting the current column with a value
computed from the current row state. -/
def setFold (g : List ℚ → ℕ → ℚ) (a k : ℕ) (r : List ℚ) : List ℚ :=
  ((List.range k).map (a + ·)).foldl (fun l c => l.set c (g l c)) r

theorem avgRowPass1_eq_setFold (first last n : ℕ) (row : List ℚ) :
    avgRowPass1 first last n row = setFold (windowFn n) (first + n) (last - (first + n)) row :=
  rfl

theorem avgRowPass2_eq_setFold (first n : ℕ) (row : List ℚ) :
    avgRowPass2 first n row = setFold (headFn first) first (n - first) row :=
  rfl

theorem setFold_succ (g : List ℚ → ℕ → ℚ) (a k : ℕ) (r : List ℚ) :
    setFold g a (k + 1) r
      = (setFold g a k r).set (a + k) (g (setFold g a k r) (a + k)) := by
  unfold setFold
  rw [show k + 1 = Nat.succ k from rfl, List.range_succ, List.map_append,
    List.foldl_append]
  simp

theorem setFold_length (g : List ℚ → ℕ → ℚ) (a k : ℕ) (r : List ℚ) :
    (setFold g a k r).length = r.length := by
  induction k with
  | zero => rfl
  | succ k ih => rw [setFold_succ, List.length_set]; exact ih

theorem setFold_take (g : List ℚ → ℕ → ℚ) (a k : ℕ) (r : List ℚ) :
    (setFold g a k r).take a = r.take a := by
  induction k with
  | zero => rfl
  | succ k ih => rw [setFold_succ, take_set _ _ _ _ (by omega)]; exact ih

theorem setFold_drop (g : List ℚ → ℕ → ℚ) (a k : ℕ) (r : List ℚ) :
    (setFold g a k r).drop (a + k) = r.drop (a + k) := by
  induction k with
  | zero => rfl
  | succ k ih =>
    rw [setFold_succ, drop_set _ _ _ _ (by omega)]
    have h := congrArg (List.drop 1) ih
    rw [List.drop_drop, List.drop_drop] at h
    have e : a + (k + 1) = a + k + 1 := by omega
    rw [e]
    exact h

theorem setFold_getD_low (g : List ℚ → ℕ → ℚ) (a k j : ℕ) (r : List ℚ) (d : ℚ)
    (h : j < a) : (setFold g a k r).getD j d = r.getD j d :=
  getD_of_take_eq _ _ a j d (setFold_take g a k r) h

theorem setFold_getD_high (g : List ℚ → ℕ → ℚ) (a k j : ℕ) (r : List ℚ) (d : ℚ)
    (h : a + k ≤ j) : (setFold g a k r).getD j d = r.getD j d :=
  getD_of_drop_eq _ _ (a + k) j d (setFold_drop g a k r) h

/-- The mean of a slice starting at a depends only on the list from a on. -/
theorem sliceMean_congr_drop (l m : List ℚ) (a b : ℕ) (h : l.drop a = m.drop a) :
    sliceMean l a b = sliceMean m a b := by
  unfold sliceMean
  rw [h]

/-- Closed form of the first averaging loop: each processed column receives
the mean of the input values at that column and the following n-1 columns,
because the loop walks forward and every window lies at or beyond the
column being written. -/
theorem setFold_pass1_getD (n a : ℕ) (row : List ℚ) :
    ∀ k, a + k ≤ row.length → ∀ j, j < k →
      (setFold (windowFn n) a k row).getD (a + j) 0
        = sliceMean row (a + j) (a + j + n) := by
  intro k
  induction k with
  | zero => intro _ j hj; omega
  | succ k ih =>
    intro hk j hj
    rw [setFold_succ]
    rcases Nat.lt_or_ge j k with hjk | hjk
    · rw [getD_set_ne _ _ _ _ _ (by omega)]
      exact ih (by omega) j hjk
    · have hj2 : k = j := by omega
      subst hj2
      rw [getD_set_self _ _ _ _ (by rw [setFold_length]; omega)]
      exact sliceMean_congr_drop _ _ _ _ (setFold_drop _ a k row)

/-- Recurrence satisfied by the second averaging loop: each processed
column receives the mean of the values already written at the previous
processed columns together with the not yet processed input value at the
column itself. -/
theorem setFold_pass2_getD (first : ℕ) (row : List ℚ) :
    ∀ k, first + k ≤ row.length → ∀ j, j < k →
      (setFold (headFn first) first k row).getD (first + j) 0
        = ((∑ m in Finset.range j,
              (setFold (headFn first) first k row).getD (first + m) 0)
            + row.getD (first + j) 0) / ((j + 1 : ℕ) : ℚ) := by
  intro k
  induction k with
  | zero => intro _ j hj; omega
  | succ k ih =>
    intro hk j hj
    rcases Nat.lt_or_ge j k with hjk | hjk
    · have e1 : (setFold (headFn first) first (k + 1) row).getD (first + j) 0
          = (setFold (headFn first) first k row).getD (first + j) 0 := by
        rw [setFold_succ]; exact getD_set_ne _ _ _ _ _ (by omega)
      have e2 : ∀ m ∈ Finset.range j,
          (setFold (headFn first) first (k + 1) row).getD (first + m) 0
            = (setFold (headFn first) first k row).getD (first + m) 0 := by
        intro m hm
        rcases Finset.mem_range.mp hm with hm'
        rw [setFold_succ]
        exact getD_set_ne _ _ _ _ _ (by omega)
      rw [e1, Finset.sum_congr rfl e2]
      exact ih (by omega) j hjk
    · have hj2 : k = j := by omega
      subst hj2
      have hGlen : (setFold (headFn first) first k row).length = row.length :=
        setFold_length _ _ _ _
      have e1 : (setFold (headFn first) first (k + 1) row).getD (first + k) 0
          = headFn first (setFold (headFn first) first k row) (first + k) := by
        rw [setFold_succ]
        exact getD_set_self _ _ _ _ (by rw [hGlen]; omega)
      rw [e1]
      show sliceMean (setFold (headFn first) first k row) first (first + k + 1) = _
      have eb : first + k + 1 - first = k + 1 := by omega
      have hslen :
          (((setFold (headFn first) first k row).drop first).take (first + k + 1 - first)).length
            = k + 1 := by
        rw [eb, List.length_take, List.length_drop, hGlen]
        omega
      unfold sliceMean
      rw [if_neg (by rw [hslen]; omega)]
      rw [hslen]
      congr 1
      rw [sum_eq_finset_sum, hslen]
      have eterm : ∀ m ∈ Finset.range (k + 1),
          (((setFold (headFn first) first k row).drop first).take (first + k + 1 - first)).getD m 0
            = (setFold (headFn first) first k row).getD (first + m) 0 := by
        intro m hm
        rcases Finset.mem_range.mp hm with hm'
        rw [getD_take _ _ _ _ (by omega), getD_drop]
      rw [Finset.sum_congr rfl eterm, Finset.sum_range_succ]
      have elast : (setFold (headFn first) first k row).getD (first + k) 0
          = row.getD (first + k) 0 :=
        setFold_getD_high _ _ _ _ _ _ (by omega)
      have eprev : ∀ m ∈ Finset.range k,
          (setFold (headFn first) first k row).getD (first + m) 0
            = (setFold (headFn first) first (k + 1) row).getD (first + m) 0 := by
        intro m hm
        rcases Finset.mem_range.mp hm with hm'
        rw [setFold_succ, getD_set_ne _ _ _ _ _ (by omega)]
      rw [elast, Finset.sum_congr rfl eprev]

/-- Python range(a, b, -1) starts at a and continues with range(a-1, b, -1). -/
theorem pyRangeDesc_cons (a b : ℕ) (h : b < a) :
    pyRangeDesc a b = a :: pyRangeDesc (a - 1) b := by
  unfold pyRangeDesc
  have e : a - b = (a - 1 - b) + 1 := by omega
  rw [e, List.range_succ_eq_map, List.map_cons, List.map_map]
  refine congrArg₂ _ (by omega) ?_
  exact List.map_congr_left (fun i _hi => by
    simp only [Function.comp_apply]
    omega)

/-- The backward daily-conversion loop peels off its highest column first. -/
theorem dailyRow_cons (first last : ℕ) (row : List ℚ) (h : first < last) :
    dailyRow first last row = dailyRow first (last - 1) (dailyStep row last) := by
  unfold dailyRow
  rw [pyRangeDesc_cons last first h, List.foldl_cons]

/-- Closed form of the daily conversion of one row: each column after the
first recorded one becomes the difference with the immediately preceding
column of the input, because the loop walks backward and reads each
predecessor before overwriting it. -/
theorem dailyRow_getD (d : ℕ) : ∀ (first : ℕ) (row : List ℚ), first + d < row.length →
    ∀ c, (dailyRow first (first + d) row).getD c 0
      = if first < c ∧ c ≤ first + d then row.getD c 0 - row.getD (c - 1) 0
        else row.getD c 0 := by
  induction d with
  | zero =>
    intro first row _ c
    have e0 : dailyRow first first row = row := by
      unfold dailyRow pyRangeDesc
      simp
    rw [Nat.add_zero, e0, if_neg (by omega)]
  | succ d ih =>
    intro first row hlen c
    rw [dailyRow_cons _ _ _ (by omega)]
    have e : first + (d + 1) - 1 = first + d := by omega
    rw [e]
    have hlen' : first + d < (dailyStep row (first + (d + 1))).length := by
      unfold dailyStep
      rw [List.length_set]
      omega
    rw [ih first (dailyStep row (first + (d + 1))) hlen' c]
    by_cases h1 : first < c ∧ c ≤ first + d
    · rw [if_pos h1, if_pos (by omega)]
      unfold dailyStep
      rw [getD_set_ne _ _ _ _ _ (by omega), getD_set_ne _ _ _ _ _ (by omega)]
    · rw [if_neg h1]
      by_cases h2 : c = first + (d + 1)
      · subst h2
        rw [if_pos (by omega)]
        unfold dailyStep
        rw [getD_set_self _ _ _ _ (by omega)]
      · rw [if_neg (by omega)]
        unfold dailyStep
        rw [getD_set_ne _ _ _ _ _ (by omega)]

theorem n_day_average_index (df : DF) (n : ℕ) : (n_day_average df n).index = df.index := rfl

theorem n_day_average_cols (df : DF) (n : ℕ) : (n_day_average df n).cols = df.cols := rfl

theorem n_day_average_data (df : DF) (n : ℕ) :
    (n_day_average df n).data
      = df.data.map (fun row => avgRowPass2 (df.cols.indexOf day0) n
          (avgRowPass1 (df.cols.indexOf day0) (df.cols.length - 1) n row)) := rfl

theorem convert_to_daily_data (df : DF) :
    (convert_to_daily df).1.data
      = df.data.map (dailyRow (df.cols.indexOf day0) (df.cols.length - 1)) := rfl

theorem convert_to_daily_snd (df : DF) :
    (convert_to_daily df).2
      = df.data.map (fun row => row.getD (df.cols.length - 1) 0) := rfl

/-- Taking one element of a suffix inside the list yields that element. -/
theorem take_one_drop (r : List ℚ) (c : ℕ) (h : c < r.length) :
    (r.drop c).take 1 = [r.getD c 0] := by
  have hlen : ((r.drop c).take 1).length = 1 := by
    rw [List.length_take, List.length_drop]
    omega
  have h0 : ((r.drop c).take 1).getD 0 0 = r.getD c 0 := by
    rw [getD_take _ _ _ _ (by omega), getD_drop, Nat.add_zero]
  rcases e : (r.drop c).take 1 with _ | ⟨x, _ | ⟨y, t⟩⟩
  · rw [e] at hlen
    simp at hlen
  · rw [e] at h0
    simp at h0
    simp [h0]
  · rw [e] at hlen
    simp at hlen

/-- A one-day window writes each column value back unchanged. -/
theorem avgStep_one (r : List ℚ) (c : ℕ) : avgStep 1 r c = r := by
  unfold avgStep
  by_cases h : c < r.length
  · have e : sliceMean r c (c + 1) = r.getD c 0 := by
      unfold sliceMean
      have e1 : c + 1 - c = 1 := by omega
      rw [e1, take_one_drop r c h]
      simp
    rw [e, set_getD_self _ _ _ h]
  · rw [set_of_len_le _ _ _ (by omega)]

/-- A fold whose step does nothing does nothing. -/
theorem foldl_congr_id {f : List ℚ → ℕ → List ℚ} (hf : ∀ r c, f r c = r) :
    ∀ (L : List ℕ) (r : List ℚ), L.foldl f r = r := by
  intro L
  induction L with
  | nil => intro r; rfl
  | cons x t ih =>
    intro r
    rw [List.foldl_cons, hf]
    exact ih r

theorem avgRowPass1_one (first last : ℕ) (row : List ℚ) :
    avgRowPass1 first last 1 row = row := by
  unfold avgRowPass1
  exact foldl_congr_id avgStep_one _ row

theorem avgRowPass2_one (first : ℕ) (row : List ℚ) :
    avgRowPass2 first 1 row = row := by
  unfold avgRowPass2 pyRangeAsc
  cases first with
  | zero =>
    rw [show (List.range (1 - 0)).map (0 + ·) = [0] from by decide,
      List.foldl_cons, List.foldl_nil]
    rw [show avgStep2 0 row 0 = avgStep 1 row 0 from rfl, avgStep_one]
  | succ f =>
    rw [show (1 : ℕ) - (f + 1) = 0 from by omega]
    simp

/-- C5: for window size 1 the rolling average is the identity
transformation on the table. -/
theorem n_day_average_one (df : DF) : n_day_average df 1 = df := by
  have e : (n_day_average df 1).data = df.data := by
    rw [n_day_average_data,
      List.map_congr_left (fun row _ => by rw [avgRowPass1_one, avgRowPass2_one])]
    simp
  have e2 : n_day_average df 1 = { df with data := (n_day_average df 1).data } := rfl
  rw [e2, e]

/-- The five consecutive date labels of the worked example of the spec. -/
def dates5 : List String := ["1/22/20", "1/23/20", "1/24/20", "1/25/20", "1/26/20"]

/-- A one-county table holding the cumulative values 0, 0, 2, 2, 5. -/
def exDF5 : DF := ⟨["Sacramento"], dates5, [[0, 0, 2, 2, 5]]⟩

theorem convert_exDF5_data : (convert_to_daily exDF5).1.data = [[0, 0, 2, 0, 3]] := by
  have e1 : exDF5.cols.indexOf day0 = 0 := by decide
  have e2 : exDF5.cols.length = 5 := by decide
  have e3 : pyRangeDesc 4 0 = [4, 3, 2, 1] := by decide
  rw [convert_to_daily_data, e1, e2]
  show [dailyRow 0 4 [0, 0, 2, 2, 5]] = [[0, 0, 2, 0, 3]]
  unfold dailyRow
  rw [show (4 : ℕ) = 5 - 1 from rfl] at e3
  rw [e3]
  norm_num [dailyStep, List.getD]

theorem convert_exDF5_snd : (convert_to_daily exDF5).2 = [5] := by
  have e2 : exDF5.cols.length = 5 := by decide
  rw [convert_to_daily_snd, e2]
  show [List.getD [(0 : ℚ), 0, 2, 2, 5] 4 0] = [5]
  norm_num [List.getD]

/-- C4: on the cumulative row 0,0,2,2,5 over five consecutive dates
starting at the first recorded date, convert_to_daily produces the daily
row 0,0,2,0,3 and reports 5 total deaths for the county. -/
theorem convert_to_daily_example :
    (convert_to_daily exDF5).1.data = [[0, 0, 2, 0, 3]] ∧
    (convert_to_daily exDF5).2 = [5] :=
  ⟨convert_exDF5_data, convert_exDF5_snd⟩

/-- C10: the averaged table keeps the row labels, the column labels, the
row count and every row length of its input. -/
theorem n_day_average_shape (df : DF) (n i : ℕ) (_hn : 1 ≤ n) :
    (n_day_average df n).index = df.index ∧
    (n_day_average df n).cols = df.cols ∧
    (n_day_average df n).data.length = df.data.length ∧
    ((n_day_average df n).data.getD i []).length = (df.data.getD i []).length := by
  refine ⟨rfl, rfl, by rw [n_day_average_data, List.length_map], ?_⟩
  by_cases hi : i < df.data.length
  · rw [n_day_average_data, getD_map df.data _ i [] [] hi]
    rw [avgRowPass2_eq_setFold, avgRowPass1_eq_setFold, setFold_length, setFold_length]
  · have h1 : df.data.length ≤ i := by omega
    have h2 : (n_day_average df n).data.length ≤ i := by
      rw [n_day_average_data, List.length_map]
      omega
    rw [List.getD_eq_default _ _ h2, List.getD_eq_default _ _ h1]

theorem n_day_average_shape_witness :
    1 ≤ 2 ∧
    ((n_day_average exDF5 2).index = exDF5.index ∧
     (n_day_average exDF5 2).cols = exDF5.cols ∧
     (n_day_average exDF5 2).data.length = exDF5.data.length ∧
     ((n_day_average exDF5 2).data.getD 0 []).length = (exDF5.data.getD 0 []).length) :=
  ⟨by decide, n_day_average_shape exDF5 2 0 (by decide)⟩

/-- C8: the totals series returned by convert_to_daily holds, for each
county, the value the last date column had before the conversion. -/
theorem total_deaths_last_column (df : DF) (i : ℕ) (hi : i < df.data.length) :
    (convert_to_daily df).2.getD i 0 = (df.data.getD i []).getD (df.cols.length - 1) 0 := by
  rw [convert_to_daily_snd, getD_map df.data _ i [] 0 hi]

theorem total_deaths_last_column_witness :
    0 < exDF5.data.length ∧
    (convert_to_daily exDF5).2.getD 0 0
      = (exDF5.data.getD 0 []).getD (exDF5.cols.length - 1) 0 :=
  ⟨by decide, total_deaths_last_column exDF5 0 (by decide)⟩

theorem n_day_average_row (df : DF) (n i : ℕ) (hi : i < df.data.length) :
    (n_day_average df n).data.getD i []
      = avgRowPass2 (df.cols.indexOf day0) n
          (avgRowPass1 (df.cols.indexOf day0) (df.cols.length - 1) n (df.data.getD i [])) := by
  rw [n_day_average_data, getD_map df.data _ i [] [] hi]

theorem convert_to_daily_row (df : DF) (i : ℕ) (hi : i < df.data.length) :
    (convert_to_daily df).1.data.getD i []
      = dailyRow (df.cols.indexOf day0) (df.cols.length - 1) (df.data.getD i []) := by
  rw [convert_to_daily_data, getD_map df.data _ i [] [] hi]

/-- C1 amended: every column strictly between first_column + n and the last
column receives the mean of the input values at itself and the following
n - 1 columns, a forward window, while the last column is left at its daily
value, since the first loop stops short of last_column. -/
theorem n_day_average_window (df : DF) (n i c : ℕ)
    (hi : i < df.data.length)
    (hrect : (df.data.getD i []).length = df.cols.length)
    (h1 : df.cols.indexOf day0 + n ≤ c)
    (h2 : c < df.cols.length - 1) :
    cell (n_day_average df n) i c = sliceMean (df.data.getD i []) c (c + n) ∧
    cell (n_day_average df n) i (df.cols.length - 1)
      = cell df i (df.cols.length - 1) := by
  have hrowkey := n_day_average_row df n i hi
  have hlastlen : df.cols.length - 1 ≤ (df.data.getD i []).length := by
    rw [hrect]
    omega
  constructor
  · simp only [cell, hrowkey]
    rw [avgRowPass2_eq_setFold, setFold_getD_high _ _ _ _ _ _ (by omega)]
    rw [avgRowPass1_eq_setFold]
    have hkey := setFold_pass1_getD n (df.cols.indexOf day0 + n) (df.data.getD i [])
      (df.cols.length - 1 - (df.cols.indexOf day0 + n)) (by omega)
      (c - (df.cols.indexOf day0 + n)) (by omega)
    have ec : df.cols.indexOf day0 + n + (c - (df.cols.indexOf day0 + n)) = c := by omega
    rw [ec] at hkey
    exact hkey
  · simp only [cell, hrowkey]
    rw [avgRowPass2_eq_setFold, setFold_getD_high _ _ _ _ _ _ (by omega)]
    rw [avgRowPass1_eq_setFold, setFold_getD_high _ _ _ _ _ _ (by omega)]

/-- The four consecutive date labels of the first counterexample table. -/
def dates4 : List String := ["1/22/20", "1/23/20", "1/24/20", "1/25/20"]

/-- A one-county table of daily values 0, 3, 6, 9. -/
def exDF4 : DF := ⟨["Sacramento"], dates4, [[0, 3, 6, 9]]⟩

/-- C1 counterexample: with window 2 on daily values 0, 3, 6, 9 the last
column stays 9 instead of becoming the trailing mean of columns 2 and 3,
so the averaging does not cover every column after the first n. -/
theorem n_day_average_window_counterexample :
    ¬ cell (n_day_average exDF4 2) 0 3 = (cell exDF4 0 2 + cell exDF4 0 3) / 2 := by
  have e1 : exDF4.cols.indexOf day0 = 0 := by decide
  have e2 : exDF4.cols.length = 4 := by decide
  have r1 : pyRangeAsc (0 + 2) (4 - 1) = [2] := by decide
  have r2 : pyRangeAsc 0 2 = [0, 1] := by decide
  simp only [cell, n_day_average_data, e1, e2]
  norm_num [exDF4, avgRowPass1, avgRowPass2, r1, r2, avgStep, avgStep2, sliceMean,
    List.getD]

theorem n_day_average_window_witness :
    0 < exDF4.data.length ∧
    (exDF4.data.getD 0 []).length = exDF4.cols.length ∧
    exDF4.cols.indexOf day0 + 2 ≤ 2 ∧
    2 < exDF4.cols.length - 1 ∧
    (cell (n_day_average exDF4 2) 0 2 = sliceMean (exDF4.data.getD 0 []) 2 (2 + 2) ∧
     cell (n_day_average exDF4 2) 0 (exDF4.cols.length - 1)
       = cell exDF4 0 (exDF4.cols.length - 1)) :=
  ⟨by decide, by decide, by decide, by decide,
    n_day_average_window exDF4 2 0 2 (by decide) (by decide) (by decide) (by decide)⟩

/-- The length of a row is preserved by the daily-conversion loop. -/
theorem foldl_dailyStep_length : ∀ (L : List ℕ) (r : List ℚ),
    (L.foldl dailyStep r).length = r.length := by
  intro L
  induction L with
  | nil => intro r; rfl
  | cons x tl ih =>
    intro r
    rw [List.foldl_cons, ih]
    unfold dailyStep
    rw [List.length_set]

/-- Telescoping: the daily values of a converted row, summed from the
first recorded date to the end of the row, give back the last cumulative
value of the input row. -/
theorem dailyRow_sum (first last : ℕ) (row : List ℚ) (hfl : first ≤ last)
    (hlast : last + 1 = row.length) :
    ((dailyRow first last row).drop first).sum = row.getD last 0 := by
  obtain ⟨t, ht⟩ : ∃ t, last = first + t := ⟨last - first, by omega⟩
  subst ht
  have hclosed := dailyRow_getD t first row (by omega)
  have hdlen : (dailyRow first (first + t) row).length = row.length := by
    unfold dailyRow
    exact foldl_dailyStep_length _ _
  have hsum : ((dailyRow first (first + t) row).drop first).sum
      = ∑ j in Finset.range ((dailyRow first (first + t) row).length - first),
          (dailyRow first (first + t) row).getD (first + j) 0 := by
    rw [sum_eq_finset_sum, List.length_drop]
    exact Finset.sum_congr rfl (fun j _ => by rw [getD_drop])
  rw [hsum, hdlen]
  have hm : row.length - first = t + 1 := by omega
  rw [hm]
  rw [Finset.sum_range_succ' (fun j => (dailyRow first (first + t) row).getD (first + j) 0) t]
  have ef0 : (dailyRow first (first + t) row).getD (first + 0) 0 = row.getD first 0 := by
    rw [Nat.add_zero, hclosed first, if_neg (by omega)]
  have efs : ∀ j ∈ Finset.range t,
      (dailyRow first (first + t) row).getD (first + (j + 1)) 0
        = row.getD (first + (j + 1)) 0 - row.getD (first + j) 0 := by
    intro j hj
    rcases Finset.mem_range.mp hj with hj'
    rw [hclosed (first + (j + 1)), if_pos ⟨by omega, by omega⟩]
    have e : first + (j + 1) - 1 = first + j := by omega
    rw [e]
  rw [Finset.sum_congr rfl efs, ef0,
    Finset.sum_range_sub (fun j => row.getD (first + j) 0) t]
  rw [Nat.add_zero, sub_add_cancel]

/-- C2: for a table containing the first recorded date, the daily values
of any county row after conversion, summed over all date columns, equal
the original last cumulative value of that row; the claim assumes the row
is non-negative and non-decreasing, which the code does not even need. -/
theorem daily_sum_eq_last (df : DF) (i : ℕ)
    (hi : i < df.data.length)
    (hrect : (df.data.getD i []).length = df.cols.length)
    (hday : day0 ∈ df.cols)
    (_hnonneg : ∀ c, c < df.cols.length → df.cols.indexOf day0 ≤ c →
      0 ≤ (df.data.getD i []).getD c 0)
    (_hmono : ∀ c, c < df.cols.length - 1 → df.cols.indexOf day0 ≤ c →
      (df.data.getD i []).getD c 0 ≤ (df.data.getD i []).getD (c + 1) 0) :
    (((convert_to_daily df).1.data.getD i []).drop (df.cols.indexOf day0)).sum
      = (df.data.getD i []).getD (df.cols.length - 1) 0 := by
  have hflt : df.cols.indexOf day0 < df.cols.length := List.indexOf_lt_length.mpr hday
  rw [convert_to_daily_row df i hi]
  exact dailyRow_sum _ _ _ (by omega) (by omega)

theorem daily_sum_eq_last_witness :
    0 < exDF5.data.length ∧
    (exDF5.data.getD 0 []).length = exDF5.cols.length ∧
    day0 ∈ exDF5.cols ∧
    (∀ c, c < exDF5.cols.length → exDF5.cols.indexOf day0 ≤ c →
      0 ≤ (exDF5.data.getD 0 []).getD c 0) ∧
    (∀ c, c < exDF5.cols.length - 1 → exDF5.cols.indexOf day0 ≤ c →
      (exDF5.data.getD 0 []).getD c 0 ≤ (exDF5.data.getD 0 []).getD (c + 1) 0) ∧
    (((convert_to_daily exDF5).1.data.getD 0 []).drop (exDF5.cols.indexOf day0)).sum
      = (exDF5.data.getD 0 []).getD (exDF5.cols.length - 1) 0 :=
  ⟨by decide, by decide, by decide, by decide, by decide,
    daily_sum_eq_last exDF5 0 (by decide) (by decide) (by decide) (by decide) (by decide)⟩

/-- C3 amended: the second loop covers the absolute column positions from
the first recorded date up to n - 1, and each covered column receives the
mean of the values already written at the previous covered columns
together with the input value at the column itself, an iterated shrinking
window over partially averaged data. -/
theorem n_day_average_head (df : DF) (n i c : ℕ)
    (hi : i < df.data.length)
    (hrect : (df.data.getD i []).length = df.cols.length)
    (hfc : df.cols.indexOf day0 ≤ c)
    (hcn : c < n)
    (hnlen : n ≤ df.cols.length) :
    cell (n_day_average df n) i c
      = ((∑ m in Finset.range (c - df.cols.indexOf day0),
            cell (n_day_average df n) i (df.cols.indexOf day0 + m))
          + cell df i c) / ((c - df.cols.indexOf day0 + 1 : ℕ) : ℚ) := by
  have hrowkey := n_day_average_row df n i hi
  simp only [cell, hrowkey]
  rw [avgRowPass2_eq_setFold]
  have hr1len : (avgRowPass1 (df.cols.indexOf day0) (df.cols.length - 1) n
      (df.data.getD i [])).length = (df.data.getD i []).length := by
    rw [avgRowPass1_eq_setFold, setFold_length]
  have hbound : df.cols.indexOf day0 + (n - df.cols.indexOf day0)
      ≤ (avgRowPass1 (df.cols.indexOf day0) (df.cols.length - 1) n
          (df.data.getD i [])).length := by
    rw [hr1len, hrect]
    omega
  have hkey := setFold_pass2_getD (df.cols.indexOf day0)
    (avgRowPass1 (df.cols.indexOf day0) (df.cols.length - 1) n (df.data.getD i []))
    (n - df.cols.indexOf day0) hbound (c - df.cols.indexOf day0) (by omega)
  have ec : df.cols.indexOf day0 + (c - df.cols.indexOf day0) = c := by omega
  rw [ec] at hkey
  rw [hkey]
  have hlow : (avgRowPass1 (df.cols.indexOf day0) (df.cols.length - 1) n
      (df.data.getD i [])).getD c 0 = (df.data.getD i []).getD c 0 := by
    rw [avgRowPass1_eq_setFold]
    exact setFold_getD_low _ _ _ _ _ _ (by omega)
  rw [hlow]

/-- The three consecutive date labels of the second counterexample table. -/
def dates3 : List String := ["1/22/20", "1/23/20", "1/24/20"]

/-- A one-county table of daily values 0, 2, 4. -/
def exDF3 : DF := ⟨["Sacramento"], dates3, [[0, 2, 4]]⟩

/-- C3 counterexample: with window 3 on daily values 0, 2, 4 the code
writes 5/3 into the third column, not the mean 2 of the three input
columns, because the shrinking window reads the already averaged value 1
at the second column. -/
theorem n_day_average_head_counterexample :
    ¬ cell (n_day_average exDF3 3) 0 2
        = (cell exDF3 0 0 + cell exDF3 0 1 + cell exDF3 0 2) / 3 := by
  have e1 : exDF3.cols.indexOf day0 = 0 := by decide
  have e2 : exDF3.cols.length = 3 := by decide
  have r1 : pyRangeAsc (0 + 3) (3 - 1) = [] := by decide
  have r2 : pyRangeAsc 0 3 = [0, 1, 2] := by decide
  simp only [cell, n_day_average_data, e1, e2]
  norm_num [exDF3, avgRowPass1, avgRowPass2, r1, r2, avgStep, avgStep2, sliceMean,
    List.getD]
  split_ifs <;> norm_num

theorem n_day_average_head_witness :
    0 < exDF3.data.length ∧
    (exDF3.data.getD 0 []).length = exDF3.cols.length ∧
    exDF3.cols.indexOf day0 ≤ 2 ∧
    2 < 3 ∧
    3 ≤ exDF3.cols.length ∧
    cell (n_day_average exDF3 3) 0 2
      = ((∑ m in Finset.range (2 - exDF3.cols.indexOf day0),
            cell (n_day_average exDF3 3) 0 (exDF3.cols.indexOf day0 + m))
          + cell exDF3 0 2) / ((2 - exDF3.cols.indexOf day0 + 1 : ℕ) : ℚ) :=
  ⟨by decide, by decide, by decide, by decide, by decide,
    n_day_average_head exDF3 3 0 2 (by decide) (by decide) (by decide) (by decide)
      (by decide)⟩

/-- A heap holding the example table as its only object. -/
def exHeap : Heap := [exDF5]

/-- C6 counterexample: convert_to_daily overwrites the table its argument
refers to, so the argument object does not keep its value across the
call; on the example heap the stored row changes from the cumulative
values to the daily values. -/
theorem convert_to_daily_mutates_counterexample :
    ¬ readT (convert_to_daily_heap exHeap 0).1 0 = readT exHeap 0 := by
  intro hcontra
  have hdata : (convert_to_daily exDF5).1.data = exDF5.data := congrArg DF.data hcontra
  rw [convert_exDF5_data] at hdata
  norm_num [exDF5] at hdata

/-- C6 amended: n_day_average is pure, writing only a freshly allocated
copy and returning the reference of that copy, so its argument object is
unchanged; convert_to_daily instead writes the converted table back
through the reference of its argument and returns that same reference. -/
theorem transformer_aliasing (h : Heap) (r n : ℕ) (hr : r < h.length) :
    readT (n_day_average_heap h r n).1 r = readT h r ∧
    (n_day_average_heap h r n).2 ≠ r ∧
    readT (n_day_average_heap h r n).1 (n_day_average_heap h r n).2
      = n_day_average (readT h r) n ∧
    (convert_to_daily_heap h r).2.1 = r ∧
    readT (convert_to_daily_heap h r).1 r = (convert_to_daily (readT h r)).1 := by
  refine ⟨?_, ?_, ?_, rfl, ?_⟩
  · show ((h ++ [readT h r]).set h.length (n_day_average (readT h r) n)).getD r emptyDF
      = h.getD r emptyDF
    rw [getD_set_ne _ _ _ _ _ (by omega), getD_append_left _ _ _ _ hr]
  · show h.length ≠ r
    omega
  · show ((h ++ [readT h r]).set h.length (n_day_average (readT h r) n)).getD h.length emptyDF
      = n_day_average (readT h r) n
    rw [getD_set_self _ _ _ _ (by simp)]
  · show (h.set r (convert_to_daily (readT h r)).1).getD r emptyDF
      = (convert_to_daily (readT h r)).1
    rw [getD_set_self _ _ _ _ hr]

theorem transformer_aliasing_witness :
    0 < exHeap.length ∧
    (readT (n_day_average_heap exHeap 0 7).1 0 = readT exHeap 0 ∧
     (n_day_average_heap exHeap 0 7).2 ≠ 0 ∧
     readT (n_day_average_heap exHeap 0 7).1 (n_day_average_heap exHeap 0 7).2
       = n_day_average (readT exHeap 0) 7 ∧
     (convert_to_daily_heap exHeap 0).2.1 = 0 ∧
     readT (convert_to_daily_heap exHeap 0).1 0 = (convert_to_daily (readT exHeap 0)).1) :=
  ⟨by decide, transformer_aliasing exHeap 0 7 (by decide)⟩

/-- C7: run_program raises the explicit ValueError exactly when the
title-cased county is missing from the stats table, before the conversion
and averaging steps run; when the county is present, no ValueError is
raised, a failing later lookup being a KeyError instead. -/
theorem run_program_validation (stats covid : DF) (county : String) :
    (county_in_df (pytitle county) stats = false →
      (run_program stats covid county).2
          = some (ProgErr.valueError "That is an invalid county.") ∧
      Event.convert ∉ (run_program stats covid county).1 ∧
      Event.average ∉ (run_program stats covid county).1) ∧
    (county_in_df (pytitle county) stats = true →
      ∀ msg, (run_program stats covid county).2 ≠ some (ProgErr.valueError msg)) := by
  constructor
  · intro hmiss
    simp only [run_program, hmiss]
    rw [if_neg Bool.false_ne_true]
    refine ⟨rfl, by decide, by decide⟩
  · intro hpres msg
    simp only [run_program, hpres]
    cases hgc : get_county (n_day_average (convert_to_daily covid).1 7) (pytitle county) with
    | ok row => simp [hgc]
    | error e =>
      have hkey : ∃ k, e = ProgErr.keyError k := by
        unfold get_county at hgc
        cases hidx :
            (n_day_average (convert_to_daily covid).1 7).index.indexOf? (pytitle county) with
        | some j =>
          rw [hidx] at hgc
          simp at hgc
        | none =>
          rw [hidx] at hgc
          simp at hgc
          exact ⟨pytitle county, hgc.symm⟩
      obtain ⟨k, rfl⟩ := hkey
      simp [hgc]

/-- A stats table with Sacramento as its only county. -/
def exStats : DF := ⟨["Sacramento"], ["Lon", "Lat"], [[3, 4]]⟩

theorem run_program_validation_witness :
    county_in_df (pytitle "atlantis") exStats = false ∧
    county_in_df (pytitle "sacramento") exStats = true ∧
    (run_program exStats exDF5 "atlantis").2
      = some (ProgErr.valueError "That is an invalid county.") ∧
    (run_program exStats exDF5 "sacramento").2
      ≠ some (ProgErr.valueError "That is an invalid county.") :=
  ⟨by decide, by decide,
    ((run_program_validation exStats exDF5 "atlantis").1 (by decide)).1,
    (run_program_validation exStats exDF5 "sacramento").2 (by decide)
      "That is an invalid county."⟩

/-- C9: get_data downloads exactly when the cache file is absent or its
modification time lies more than twelve hours before the current time; in
particular a cache younger than twelve hours suppresses the network call. -/
theorem get_data_cache_policy (e : Bool) (now mtime : ℚ) :
    (get_data_downloads e now mtime = true
      ↔ (e = false ∨ now - mtime > 60 * 60 * 12)) ∧
    (e = true → now - mtime < 60 * 60 * 12 → get_data_downloads e now mtime = false) := by
  constructor
  · unfold get_data_downloads
    cases e <;> simp
  · intro he hyoung
    subst he
    unfold get_data_downloads
    simp only [Bool.not_true, Bool.false_or]
    exact decide_eq_false (by linarith)

theorem get_data_cache_policy_witness :
    true = true ∧ (0 : ℚ) - 0 < 60 * 60 * 12 ∧ get_data_downloads true 0 0 = false :=
  ⟨rfl, by norm_num, (get_data_cache_policy true 0 0).2 rfl (by norm_num)⟩

end Covid
